import Mathlib

/-!
Verification of the Conway's-game-of-life tick server (examples/conway.rs).

The grid is a flat buffer of `SIZE_X * SIZE_Z` booleans.  We model the buffer
as a function `Nat → Bool`; only indices below `SIZE_X * SIZE_Z` correspond to
cells of the buffer, and every theorem restricts attention to that range.
Rust `usize` arithmetic that can wrap is modelled with an explicit
`% USIZE` (`USIZE = 2 ^ 64`).
-/

/-- Source constant `const MAX_PLAYERS: usize = 10;`. -/
def MAX_PLAYERS : Nat := 10

/-- Source constant `const SIZE_X: usize = 100;`. -/
def SIZE_X : Nat := 100

/-- Source constant `const SIZE_Z: usize = 100;`. -/
def SIZE_Z : Nat := 100

/-- Source constant `const BOARD_Y: i32 = 50;`. -/
def BOARD_Y : Int := 50

/-- Number of values of Rust `usize` (64-bit platform). -/
def USIZE : Nat := 2 ^ 64

/-- One generation buffer (`board: Box<[bool]>` of length `SIZE_X * SIZE_Z`),
abstracted as its indexing function. -/
abbrev Board := Nat → Bool

/-- Source expression `let cx = (i % SIZE_X) as i32;` (the kernel's x-decoding of a flat index). -/
def decodeX (i : Nat) : Nat := i % SIZE_X

/-- Source expression `let cz = (i / SIZE_Z) as i32;` (the kernel's z-decoding of a flat index). -/
def decodeZ (i : Nat) : Nat := i / SIZE_Z

/-- The row-major storage index `x + z * SIZE_X` used everywhere the code
addresses the board. -/
def encode (x z : Nat) : Nat := x + z * SIZE_X

/-- Source expression `x.rem_euclid(SIZE_X as i32) as usize + z.rem_euclid(SIZE_Z as i32) as usize * SIZE_X`:
the wrapped flat index of a (possibly out-of-range) neighbor coordinate.
Lean's `Int` `%` is Euclidean remainder, exactly `i32::rem_euclid`. -/
def wrapIdx (x z : Int) : Nat :=
  (x % (SIZE_X : Int)).toNat + (z % (SIZE_Z : Int)).toNat * SIZE_X

/-- One iteration of the neighbor-scanning loop body: contributes nothing at the
center (`!(x == cx && z == cz)` guard), else 1 when the wrapped cell is alive. -/
def countAt (b : Board) (cx cz x z : Int) : Nat :=
  if x = cx ∧ z = cz then 0
  else if b (wrapIdx x z) then 1 else 0

/-- The 3×3 neighbor-scanning loop
`for z in cz-1..=cz+1 { for x in cx-1..=cx+1 { ... } }`, unrolled
(z outer, x inner, in iteration order). -/
def neighborCount (b : Board) (cx cz : Int) : Nat :=
  countAt b cx cz (cx - 1) (cz - 1) + countAt b cx cz cx (cz - 1) +
    countAt b cx cz (cx + 1) (cz - 1) +
  countAt b cx cz (cx - 1) cz + countAt b cx cz cx cz + countAt b cx cz (cx + 1) cz +
  countAt b cx cz (cx - 1) (cz + 1) + countAt b cx cz cx (cz + 1) +
    countAt b cx cz (cx + 1) (cz + 1)

/-- The per-cell body of the step kernel (`board_buf.par_iter_mut().enumerate()`
closure): decode `i`, count live neighbors in the prior generation `b`, apply
the rule `(2..=3).contains(&live_count)` / `live_count == 3`. -/
def cellNext (b : Board) (i : Nat) : Bool :=
  let cx : Int := (decodeX i : Nat)
  let cz : Int := (decodeZ i : Nat)
  let live_count : Nat := neighborCount b cx cz
  if b (cx.toNat + cz.toNat * SIZE_X) then decide (2 ≤ live_count ∧ live_count ≤ 3)
  else decide (live_count = 3)

/-- The full generation step: every cell of the scratch buffer is written from
the prior generation, then `mem::swap(board, board_buf)` makes it current. -/
def step (b : Board) : Board := fun i => cellNext b i

/-- Modelled from the spec: the game-of-life transition rule as the spec states
it — the new value is alive iff (the cell was alive and the count is 2 or 3)
or (the cell was dead and the count is exactly 3). -/
def lifeRule (alive : Bool) (n : Nat) : Bool :=
  (alive && decide (n = 2 ∨ n = 3)) || (!alive && decide (n = 3))

/-- Modelled from the spec: the 8 toroidal neighbor offsets, each unit step
backwards represented as adding `SIZE - 1` before reducing modulo the size. -/
def neighborOffsets : List (Nat × Nat) :=
  [(SIZE_X - 1, SIZE_Z - 1), (0, SIZE_Z - 1), (1, SIZE_Z - 1),
   (SIZE_X - 1, 0), (1, 0),
   (SIZE_X - 1, 1), (0, 1), (1, 1)]

/-- Modelled from the spec: the number of alive cells among the 8 toroidal
neighbors of `(x, z)`, neighbor coordinates wrapped modulo `SIZE_X` and
`SIZE_Z` respectively. -/
def torusCount (b : Board) (x z : Nat) : Nat :=
  (neighborOffsets.map (fun d =>
    if b ((x + d.1) % SIZE_X + ((z + d.2) % SIZE_Z) * SIZE_X) then 1 else 0)).sum

/-- A horizontal 3-cell blinker centered at cell `(50, 50)`: exactly the cells
`(49, 50)`, `(50, 50)`, `(51, 50)` are alive. -/
def blinkerH : Board := fun i =>
  decide (i = encode 49 50 ∨ i = encode 50 50 ∨ i = encode 51 50)

/-- The same blinker rotated 90 degrees about its center cell `(50, 50)`:
exactly the cells `(50, 49)`, `(50, 50)`, `(50, 51)` are alive. -/
def blinkerV : Board := fun i =>
  decide (i = encode 50 49 ∨ i = encode 50 50 ∨ i = encode 50 51)

/-- Rust `as usize` on an `i64`/`i32` value: two's-complement reinterpretation
modulo `2 ^ 64`. -/
def intAsUsize (x : Int) : Nat := (x % (USIZE : Int)).toNat

/-- The closure passed to `player_count.fetch_update`:
`(count < MAX_PLAYERS).then(|| count + 1)` — `some` of the incremented count
when a slot is free, `none` otherwise. -/
def fetchUpdateJoin (count : Nat) : Option Nat :=
  if count < MAX_PLAYERS then some ((count + 1) % USIZE) else none

/-- The method `Config::join`: accept (the single world is returned) when the
compare-and-retry update succeeded, else the user-visible failure text. -/
def join (count : Nat) : Except String Unit :=
  match fetchUpdateJoin count with
  | some _ => Except.ok ()
  | none => Except.error ("The server is full!")

/-- One admission-counter operation: a join attempt, or the release performed
by the reaping pass (`player_count.fetch_sub(1)`). -/
inductive AdmissionOp where
  | join
  | release
deriving DecidableEq

/-- The admission counter together with the bookkeeping the claim observes:
how many joins were accepted and how many releases were performed. -/
structure AdmState where
  count : Nat
  accepted : Nat
  released : Nat
deriving DecidableEq

/-- The initial admission state (`player_count: AtomicUsize::new(0)`). -/
def admInit : AdmState := { count := 0, accepted := 0, released := 0 }

/-- Effect of one operation on the admission counter.  A failed join leaves
the counter unchanged; `fetch_sub(1)` wraps modulo `2 ^ 64` like `usize`. -/
def admStep (s : AdmState) : AdmissionOp → AdmState
  | AdmissionOp.join =>
      match fetchUpdateJoin s.count with
      | some c => { s with count := c, accepted := s.accepted + 1 }
      | none => s
  | AdmissionOp.release =>
      { s with count := (s.count + (USIZE - 1)) % USIZE, released := s.released + 1 }

/-- Run a sequence of admission operations from the initial state. -/
def admRun (ops : List AdmissionOp) : AdmState := ops.foldl admStep admInit

/-- A system-producible interleaving: every release is the release of a
previously accepted join (the reaping pass only releases sessions that were
admitted), checked at each point of the sequence. -/
def admissible (s : AdmState) : List AdmissionOp → Bool
  | [] => true
  | op :: rest =>
      (op ≠ AdmissionOp.release || decide (s.released < s.accepted)) &&
        admissible (admStep s op) rest

/-- A 3D position carried by movement events and teleports.  The `f64`
coordinates of the source are modelled as exact rationals: the program only
ever compares them and copies them, never rounds. -/
structure Vec3 where
  x : Rat
  y : Rat
  z : Rat
deriving DecidableEq

/-- An integer block position (`e.position` of a digging event). -/
structure BlockPos where
  x : Int
  y : Int
  z : Int
deriving DecidableEq

/-- The game mode assigned on onboarding. -/
inductive GameMode where
  | Survival
  | Creative
  | Adventure
  | Spectator
deriving DecidableEq

/-- The events the drain loop distinguishes: `Event::Digging`,
`Event::Movement { position, .. }`, and everything else (ignored). -/
inductive Event where
  | Digging (position : BlockPos)
  | Movement (position : Vec3)
  | Other
deriving DecidableEq

/-- First welcome message of the onboarding block. -/
def welcome1 : String := "Welcome to Conway's game of life in Minecraft!"

/-- Second welcome message of the onboarding block. -/
def welcome2 : String := "Hold the left mouse button to bring blocks to life."

/-- The per-session state the example reads and writes: identity-independent
fields of a `Client` plus its pending event queue.  `presenceInserts` counts
the `player_list_mut().insert` calls made for this session (one per run of the
onboarding block). -/
structure ClientState where
  createdTick : Int
  disconnected : Bool
  position : Vec3
  pitch : Rat
  yaw : Rat
  gameMode : GameMode
  events : List Event
  messages : List String
  presenceInserts : Nat
deriving DecidableEq

/-- Source expression `let spawn_pos = [SIZE_X as f64 / 2.0, BOARD_Y as f64 + 1.0, SIZE_Z as f64 / 2.0];`. -/
def spawn_pos : Vec3 :=
  { x := (SIZE_X : Rat) / 2, y := (BOARD_Y : Rat) + 1, z := (SIZE_Z : Rat) / 2 }

/-- Modelled from the spec: the platform teleport primitive
(`client.teleport(pos, a, b)`) relocates the session to `pos` and sets its
look direction to the two angles passed. -/
def teleport (c : ClientState) (pos : Vec3) (pitch yaw : Rat) : ClientState :=
  { c with position := pos, pitch := pitch, yaw := yaw }

/-- Write `true` into one cell of the board buffer. -/
def setIdx (b : Board) (j : Nat) : Board := fun k => if k = j then true else b k

/-- The `Event::Digging` arm: bounds-check the coordinate against
`[0, SIZE_X) × [0, SIZE_Z)` at elevation `BOARD_Y`, then set the cell alive. -/
def handleDigging (b : Board) (pos : BlockPos) : Board :=
  if (0 ≤ pos.x ∧ pos.x < (SIZE_X : Int)) ∧ (0 ≤ pos.z ∧ pos.z < (SIZE_Z : Int)) ∧
      pos.y = BOARD_Y then
    setIdx b (intAsUsize pos.x + intAsUsize pos.z * SIZE_X)
  else b

/-- The `Event::Movement` arm: if the session fell to `y ≤ 0.0`, teleport it
back to spawn keeping its current pitch and yaw. -/
def handleMovement (c : ClientState) (position : Vec3) : ClientState :=
  if position.y ≤ 0 then teleport c spawn_pos c.pitch c.yaw else c

/-- The loop `while let Some(event) = client.pop_event()`: consume the queue in order,
threading the board through digging mutations and the client through
movement handling. -/
def drainEvents (b : Board) (c : ClientState) : List Event → Board × ClientState
  | [] => (b, c)
  | Event.Digging pos :: rest => drainEvents (handleDigging b pos) c rest
  | Event.Movement position :: rest => drainEvents b (handleMovement c position) rest
  | Event.Other :: rest => drainEvents b c rest

/-- Drain one client's queue to empty. -/
def drainClient (b : Board) (c : ClientState) : Board × ClientState :=
  drainEvents b { c with events := [] } c.events

/-- Drain every client in order, threading the board. -/
def drainAll (b : Board) : List ClientState → Board × List ClientState
  | [] => (b, [])
  | c :: cs =>
      let r := drainClient b c
      let rest := drainAll r.1 cs
      (rest.1, r.2 :: rest.2)

/-- The one-time onboarding block: assign Survival, teleport to spawn with
look `(0, 0)`, register the session in the player list, send the two welcome
messages. -/
def onboardSetup (c : ClientState) : ClientState :=
  let c1 := { c with gameMode := GameMode.Survival }
  let c2 := teleport c1 spawn_pos 0 0
  let c3 := { c2 with presenceInserts := c2.presenceInserts + 1 }
  { c3 with messages := c3.messages ++ [welcome1, welcome2] }

/-- The body of the `world.clients.retain` closure for one client at tick `t`:
onboard it when `created_tick == current_tick`, then report whether it is
retained (`!is_disconnected`). -/
def retainClient (t : Int) (c : ClientState) : ClientState × Bool :=
  let c1 := if c.createdTick = t then onboardSetup c else c
  (c1, !c1.disconnected)

/-- The whole retain pass: clients are visited in order; a disconnected one is
dropped and `player_count.fetch_sub(1)` runs (wrapping like `usize`), a
connected one is kept. -/
def retainPass (t : Int) (pc : Nat) : List ClientState → Nat × List ClientState
  | [] => (pc, [])
  | c :: cs =>
      let r := retainClient t c
      if r.2 then
        let rest := retainPass t pc cs
        (rest.1, r.1 :: rest.2)
      else
        retainPass t ((pc + (USIZE - 1)) % USIZE) cs

/-- A single client followed through the retain pass of successive ticks;
`none` once the client has been dropped. -/
def runClient (c : ClientState) : List Int → Option ClientState
  | [] => some c
  | t :: ts =>
      let r := retainClient t c
      if r.2 then runClient r.1 ts else none

/-- The visual markers the materializer writes. -/
inductive BlockState where
  | GRASS_BLOCK
  | DIRT
  | AIR
deriving DecidableEq

/-- Address of one block in the world: chunk coordinate (as the `i32` pair
used by `chunks.get_mut`) plus chunk-local `(x, y, z)`. -/
abbrev WKey := (Int × Int) × Nat × Nat × Nat

/-- The world's block store, restricted to what the example writes: the tiles
are pre-created at init for the whole grid extent, so lookup is total. -/
abbrev Chunks := WKey → BlockState

/-- The function `Integer::div_ceil` on positive naturals. -/
def divCeil (a b : Nat) : Nat := (a + b - 1) / b

/-- Iteration space of the materializer's four nested loops, flattened in
iteration order: `chunk_x`, then `chunk_z`, then local `x`, then local `z`. -/
def matIndices : List (Nat × Nat × Nat × Nat) :=
  (List.range (divCeil SIZE_X 16)).flatMap (fun chunkX =>
    (List.range (divCeil SIZE_Z 16)).flatMap (fun chunkZ =>
      (List.range 16).flatMap (fun x =>
        (List.range 16).map (fun z => (chunkX, chunkZ, x, z)))))

/-- The loop body as an optional write: inside grid bounds it writes the
marker derived from the current generation at elevation
`(BOARD_Y - min_y) as usize`; outside it writes nothing. -/
def matWrite (minY : Int) (b : Board) (q : Nat × Nat × Nat × Nat) :
    Option (WKey × BlockState) :=
  let cellX := q.1 * 16 + q.2.2.1
  let cellZ := q.2.1 * 16 + q.2.2.2
  if cellX < SIZE_X ∧ cellZ < SIZE_Z then
    some ((((q.1 : Int), (q.2.1 : Int)), q.2.2.1, intAsUsize (BOARD_Y - minY), q.2.2.2),
      if b (encode cellX cellZ) then BlockState.GRASS_BLOCK else BlockState.DIRT)
  else none

/-- Apply an optional single-block write (`chunk.set_block_state`). -/
def applyWrite (ch : Chunks) : Option (WKey × BlockState) → Chunks
  | some (k, v) => fun k2 => if k2 = k then v else ch k2
  | none => ch

/-- The materializer: run the loop nest over the pre-created tiles, writing
grass/dirt markers from the current generation. -/
def materialize (minY : Int) (b : Board) (ch : Chunks) : Chunks :=
  matIndices.foldl (fun ch2 q => applyWrite ch2 (matWrite minY b q)) ch

/-- The value an optional write puts at key `k`, if it targets `k`. -/
def writeHit (w : Option (WKey × BlockState)) (k : WKey) : Option BlockState :=
  match w with
  | some (k2, v) => if k2 = k then some v else none
  | none => none

/-- The last value a list of optional writes leaves at key `k`, if any write
touches `k` at all (later writes win). -/
def lastVal (ws : List (Option (WKey × BlockState))) (k : WKey) : Option BlockState :=
  ws.foldr (fun w acc =>
    match acc with
    | some v => some v
    | none => writeHit w k) none

/-- The state `Game::update` touches: the admission counter, the clients of
the single world, the two generation buffers, and the world's tiles. -/
structure GameState where
  playerCount : Nat
  clients : List ClientState
  board : Board
  boardBuf : Board
  chunks : Chunks

/-- One tick of `Game::update`: retain (onboarding + reaping), event drain,
then — only when `current_tick % 4 == 0` — the generation step with buffer
swap followed by materialization. -/
def update (t minY : Int) (g : GameState) : GameState :=
  let rp := retainPass t g.playerCount g.clients
  let dr := drainAll g.board rp.2
  let g2 : GameState :=
    { playerCount := rp.1, clients := dr.2, board := dr.1,
      boardBuf := g.boardBuf, chunks := g.chunks }
  if t % 4 ≠ 0 then g2
  else
    let g3 : GameState := { g2 with board := step g2.board, boardBuf := g2.board }
    { g3 with chunks := materialize minY g3.board g3.chunks }

/-- The board after the retain and event-drain phases of tick `t` (the value
the step phase would read). -/
def drainedBoard (t : Int) (g : GameState) : Board :=
  (drainAll g.board (retainPass t g.playerCount g.clients).2).1

lemma decode_encode (i : Nat) (h : i < SIZE_X * SIZE_Z) :
    encode (decodeX i) (decodeZ i) = i := by
  simp only [encode, decodeX, decodeZ, SIZE_X, SIZE_Z] at h ⊢
  omega

lemma countAt_center (b : Board) (cx cz : Int) : countAt b cx cz cx cz = 0 :=
  if_pos ⟨rfl, rfl⟩

lemma countAt_off (b : Board) (cx cz x z : Int) (h : ¬(x = cx ∧ z = cz)) :
    countAt b cx cz x z = if b (wrapIdx x z) then 1 else 0 :=
  if_neg h

lemma neighborCount_eq_torusCount (b : Board) (x z : Nat)
    (hx : x < SIZE_X) (hz : z < SIZE_Z) :
    neighborCount b (x : Int) (z : Int) = torusCount b x z := by
  have hX : SIZE_X = 100 := rfl
  have hZ : SIZE_Z = 100 := rfl
  have e1 : wrapIdx ((x : Int) - 1) ((z : Int) - 1) =
      (x + (SIZE_X - 1)) % SIZE_X + ((z + (SIZE_Z - 1)) % SIZE_Z) * SIZE_X := by
    simp only [wrapIdx, hX, hZ]; omega
  have e2 : wrapIdx (x : Int) ((z : Int) - 1) =
      (x + 0) % SIZE_X + ((z + (SIZE_Z - 1)) % SIZE_Z) * SIZE_X := by
    simp only [wrapIdx, hX, hZ]; omega
  have e3 : wrapIdx ((x : Int) + 1) ((z : Int) - 1) =
      (x + 1) % SIZE_X + ((z + (SIZE_Z - 1)) % SIZE_Z) * SIZE_X := by
    simp only [wrapIdx, hX, hZ]; omega
  have e4 : wrapIdx ((x : Int) - 1) (z : Int) =
      (x + (SIZE_X - 1)) % SIZE_X + ((z + 0) % SIZE_Z) * SIZE_X := by
    simp only [wrapIdx, hX, hZ]; omega
  have e5 : wrapIdx ((x : Int) + 1) (z : Int) =
      (x + 1) % SIZE_X + ((z + 0) % SIZE_Z) * SIZE_X := by
    simp only [wrapIdx, hX, hZ]; omega
  have e6 : wrapIdx ((x : Int) - 1) ((z : Int) + 1) =
      (x + (SIZE_X - 1)) % SIZE_X + ((z + 1) % SIZE_Z) * SIZE_X := by
    simp only [wrapIdx, hX, hZ]; omega
  have e7 : wrapIdx (x : Int) ((z : Int) + 1) =
      (x + 0) % SIZE_X + ((z + 1) % SIZE_Z) * SIZE_X := by
    simp only [wrapIdx, hX, hZ]; omega
  have e8 : wrapIdx ((x : Int) + 1) ((z : Int) + 1) =
      (x + 1) % SIZE_X + ((z + 1) % SIZE_Z) * SIZE_X := by
    simp only [wrapIdx, hX, hZ]; omega
  rw [neighborCount, countAt_center,
    countAt_off b _ _ _ _ (by omega), countAt_off b _ _ _ _ (by omega),
    countAt_off b _ _ _ _ (by omega), countAt_off b _ _ _ _ (by omega),
    countAt_off b _ _ _ _ (by omega), countAt_off b _ _ _ _ (by omega),
    countAt_off b _ _ _ _ (by omega), countAt_off b _ _ _ _ (by omega),
    e1, e2, e3, e4, e5, e6, e7, e8]
  simp only [torusCount, neighborOffsets, List.map_cons, List.map_nil,
    List.sum_cons, List.sum_nil]
  omega

lemma step_cell_spec (b : Board) (x z : Nat)
    (hx : x < SIZE_X) (hz : z < SIZE_Z) :
    step b (encode x z) = lifeRule (b (encode x z)) (torusCount b x z) := by
  have hdx : decodeX (encode x z) = x := by
    simp only [decodeX, encode, SIZE_X] at *; omega
  have hdz : decodeZ (encode x z) = z := by
    simp only [decodeZ, encode, SIZE_X, SIZE_Z] at *; omega
  show cellNext b (encode x z) = _
  rw [cellNext, hdx, hdz]
  simp only [Int.toNat_natCast]
  rw [neighborCount_eq_torusCount b x z hx hz]
  show (if b (x + z * SIZE_X) then _ else _) = _
  have henc : x + z * SIZE_X = encode x z := rfl
  rw [henc]
  cases hb : b (encode x z) with
  | false =>
      simp only [lifeRule, Bool.false_and, Bool.not_false, Bool.true_and,
        Bool.false_or, if_neg (by simp : ¬False)]
      rfl
  | true =>
      simp only [lifeRule, Bool.true_and, Bool.not_true, Bool.false_and,
        Bool.or_false, if_pos trivial]
      exact decide_eq_decide.mpr (by omega)

/-- Claim C1: for every cell `(x, z)` of the grid, `step` computes the next
value from the prior generation alone: it is alive iff (the cell was alive and
its 8-toroidal-neighbor live count is 2 or 3) or (it was dead and the count is
exactly 3); all other cases are dead.  Wraparound is modulo `SIZE_X`/`SIZE_Z`
in the two axes (so column 0 sees column `SIZE_X - 1` as a neighbor). -/
theorem step_follows_life_rule (b : Board) (x z : Nat)
    (hx : x < SIZE_X) (hz : z < SIZE_Z) :
    step b (encode x z) = lifeRule (b (encode x z)) (torusCount b x z) :=
  step_cell_spec b x z hx hz

/-- Witness for C1 at the concrete cell `(0, 7)` of a concrete board. -/
theorem step_follows_life_rule_witness :
    0 < SIZE_X ∧ 7 < SIZE_Z ∧
      step (fun i => i = encode 99 7) (encode 0 7) =
        lifeRule ((fun i : Nat => decide (i = encode 99 7)) (encode 0 7))
          (torusCount (fun i => i = encode 99 7) 0 7) :=
  ⟨by decide, by decide,
    step_follows_life_rule (fun i => i = encode 99 7) 0 7 (by decide) (by decide)⟩

/-- Claim C10: the kernel decodes a flat index as `x = i % SIZE_X`,
`z = i / SIZE_Z` while storage is row-major `x + z * SIZE_X`; under the fixed
configuration `SIZE_X = SIZE_Z = 100` the two agree: re-encoding the decoded
coordinates recovers `i`, and `i / SIZE_Z = i / SIZE_X` for every valid `i`. -/
theorem decode_consistent (i : Nat) (h : i < SIZE_X * SIZE_Z) :
    encode (decodeX i) (decodeZ i) = i ∧ decodeZ i = i / SIZE_X :=
  ⟨decode_encode i h, rfl⟩

/-- Witness for C10 at the concrete index 1234. -/
theorem decode_consistent_witness :
    1234 < SIZE_X * SIZE_Z ∧
      (encode (decodeX 1234) (decodeZ 1234) = 1234 ∧ decodeZ 1234 = 1234 / SIZE_X) :=
  ⟨by decide, decode_consistent 1234 (by decide)⟩

lemma wrapIdx_lt (x z : Int) : wrapIdx x z < SIZE_X * SIZE_Z := by
  have hX : SIZE_X = 100 := rfl
  have hZ : SIZE_Z = 100 := rfl
  simp only [wrapIdx, hX, hZ]
  omega

lemma countAt_congr (b1 b2 : Board)
    (hb : ∀ j, j < SIZE_X * SIZE_Z → b1 j = b2 j) (cx cz x z : Int) :
    countAt b1 cx cz x z = countAt b2 cx cz x z := by
  unfold countAt
  rw [hb (wrapIdx x z) (wrapIdx_lt x z)]

lemma neighborCount_congr (b1 b2 : Board)
    (hb : ∀ j, j < SIZE_X * SIZE_Z → b1 j = b2 j) (cx cz : Int) :
    neighborCount b1 cx cz = neighborCount b2 cx cz := by
  simp only [neighborCount, countAt_congr b1 b2 hb]

lemma step_congrOn (b1 b2 : Board)
    (hb : ∀ j, j < SIZE_X * SIZE_Z → b1 j = b2 j) (i : Nat)
    (hi : i < SIZE_X * SIZE_Z) : step b1 i = step b2 i := by
  show cellNext b1 i = cellNext b2 i
  rw [cellNext, cellNext, neighborCount_congr b1 b2 hb]
  have hc : (((decodeX i : Nat) : Int)).toNat + (((decodeZ i : Nat) : Int)).toNat * SIZE_X
      = encode (decodeX i) (decodeZ i) := by
    simp only [Int.toNat_natCast, encode]
  rw [hc, decode_encode i hi, hb i hi]

lemma blinkerH_off (j : Nat)
    (h : ¬(j = encode 49 50 ∨ j = encode 50 50 ∨ j = encode 51 50)) :
    blinkerH j = false :=
  decide_eq_false h

lemma blinkerV_off (j : Nat)
    (h : ¬(j = encode 50 49 ∨ j = encode 50 50 ∨ j = encode 50 51)) :
    blinkerV j = false :=
  decide_eq_false h

lemma torusCount_blinkerH_far (x z : Nat) (hx : x < SIZE_X) (hz : z < SIZE_Z)
    (hfar : ¬(47 ≤ x ∧ x ≤ 53 ∧ 47 ≤ z ∧ z ≤ 53)) :
    torusCount blinkerH x z = 0 := by
  have hX : SIZE_X = 100 := rfl
  have hZ : SIZE_Z = 100 := rfl
  have key : ∀ a b : Nat, a = 99 ∨ a = 0 ∨ a = 1 → b = 99 ∨ b = 0 ∨ b = 1 →
      blinkerH ((x + a) % SIZE_X + ((z + b) % SIZE_Z) * SIZE_X) = false := by
    intro a b ha hb
    apply blinkerH_off
    simp only [encode, hX, hZ] at *
    omega
  simp only [torusCount, neighborOffsets, List.map_cons, List.map_nil,
    List.sum_cons, List.sum_nil]
  rw [key (SIZE_X - 1) (SIZE_Z - 1) (by decide) (by decide),
    key 0 (SIZE_Z - 1) (by decide) (by decide),
    key 1 (SIZE_Z - 1) (by decide) (by decide),
    key (SIZE_X - 1) 0 (by decide) (by decide),
    key 1 0 (by decide) (by decide),
    key (SIZE_X - 1) 1 (by decide) (by decide),
    key 0 1 (by decide) (by decide),
    key 1 1 (by decide) (by decide)]
  simp

lemma torusCount_blinkerV_far (x z : Nat) (hx : x < SIZE_X) (hz : z < SIZE_Z)
    (hfar : ¬(47 ≤ x ∧ x ≤ 53 ∧ 47 ≤ z ∧ z ≤ 53)) :
    torusCount blinkerV x z = 0 := by
  have hX : SIZE_X = 100 := rfl
  have hZ : SIZE_Z = 100 := rfl
  have key : ∀ a b : Nat, a = 99 ∨ a = 0 ∨ a = 1 → b = 99 ∨ b = 0 ∨ b = 1 →
      blinkerV ((x + a) % SIZE_X + ((z + b) % SIZE_Z) * SIZE_X) = false := by
    intro a b ha hb
    apply blinkerV_off
    simp only [encode, hX, hZ] at *
    omega
  simp only [torusCount, neighborOffsets, List.map_cons, List.map_nil,
    List.sum_cons, List.sum_nil]
  rw [key (SIZE_X - 1) (SIZE_Z - 1) (by decide) (by decide),
    key 0 (SIZE_Z - 1) (by decide) (by decide),
    key 1 (SIZE_Z - 1) (by decide) (by decide),
    key (SIZE_X - 1) 0 (by decide) (by decide),
    key 1 0 (by decide) (by decide),
    key (SIZE_X - 1) 1 (by decide) (by decide),
    key 0 1 (by decide) (by decide),
    key 1 1 (by decide) (by decide)]
  simp

lemma step_blinkerH_cell (x z : Nat) (hx : x < SIZE_X) (hz : z < SIZE_Z) :
    step blinkerH (encode x z) = blinkerV (encode x z) := by
  by_cases hnear : 47 ≤ x ∧ x ≤ 53 ∧ 47 ≤ z ∧ z ≤ 53
  · have hd : ∀ a, a < 7 → ∀ b, b < 7 →
        step blinkerH (encode (47 + a) (47 + b)) = blinkerV (encode (47 + a) (47 + b)) := by
      decide
    have hxa : x = 47 + (x - 47) := by omega
    have hzb : z = 47 + (z - 47) := by omega
    rw [hxa, hzb]
    exact hd (x - 47) (by omega) (z - 47) (by omega)
  · rw [step_cell_spec blinkerH x z hx hz,
      torusCount_blinkerH_far x z hx hz hnear,
      blinkerH_off (encode x z) (by simp only [encode, SIZE_X, SIZE_Z] at *; omega),
      blinkerV_off (encode x z) (by simp only [encode, SIZE_X, SIZE_Z] at *; omega)]
    rfl

lemma step_blinkerV_cell (x z : Nat) (hx : x < SIZE_X) (hz : z < SIZE_Z) :
    step blinkerV (encode x z) = blinkerH (encode x z) := by
  by_cases hnear : 47 ≤ x ∧ x ≤ 53 ∧ 47 ≤ z ∧ z ≤ 53
  · have hd : ∀ a, a < 7 → ∀ b, b < 7 →
        step blinkerV (encode (47 + a) (47 + b)) = blinkerH (encode (47 + a) (47 + b)) := by
      decide
    have hxa : x = 47 + (x - 47) := by omega
    have hzb : z = 47 + (z - 47) := by omega
    rw [hxa, hzb]
    exact hd (x - 47) (by omega) (z - 47) (by omega)
  · rw [step_cell_spec blinkerV x z hx hz,
      torusCount_blinkerV_far x z hx hz hnear,
      blinkerV_off (encode x z) (by simp only [encode, SIZE_X, SIZE_Z] at *; omega),
      blinkerH_off (encode x z) (by simp only [encode, SIZE_X, SIZE_Z] at *; omega)]
    rfl

lemma decodeX_lt (i : Nat) : decodeX i < SIZE_X := by
  simp only [decodeX, SIZE_X]
  omega

lemma decodeZ_lt (i : Nat) (h : i < SIZE_X * SIZE_Z) : decodeZ i < SIZE_Z := by
  simp only [decodeZ, SIZE_X, SIZE_Z] at *
  omega

/-- Claim C3: on the 100×100 grid (large enough that the pattern does not
reach itself through the wraparound), one `step` turns the horizontal 3-cell
blinker into the same pattern rotated 90 degrees about its center cell, and a
second `step` returns exactly the original grid state (period-2 round trip),
cell for cell over the whole buffer. -/
theorem blinker_period_two :
    (∀ i, i < SIZE_X * SIZE_Z → step blinkerH i = blinkerV i) ∧
    (∀ i, i < SIZE_X * SIZE_Z → step (step blinkerH) i = blinkerH i) := by
  have h1 : ∀ i, i < SIZE_X * SIZE_Z → step blinkerH i = blinkerV i := by
    intro i hi
    have := step_blinkerH_cell (decodeX i) (decodeZ i) (decodeX_lt i) (decodeZ_lt i hi)
    rwa [decode_encode i hi] at this
  have h2 : ∀ i, i < SIZE_X * SIZE_Z → step blinkerV i = blinkerH i := by
    intro i hi
    have := step_blinkerV_cell (decodeX i) (decodeZ i) (decodeX_lt i) (decodeZ_lt i hi)
    rwa [decode_encode i hi] at this
  refine ⟨h1, fun i hi => ?_⟩
  rw [step_congrOn (step blinkerH) blinkerV h1 i hi]
  exact h2 i hi

/-- Witness for C3 at the center cell and one arm cell of the blinker. -/
theorem blinker_period_two_witness :
    encode 50 49 < SIZE_X * SIZE_Z ∧
      step blinkerH (encode 50 49) = blinkerV (encode 50 49) ∧
      step (step blinkerH) (encode 50 49) = blinkerH (encode 50 49) :=
  ⟨by decide, blinker_period_two.1 (encode 50 49) (by decide),
    blinker_period_two.2 (encode 50 49) (by decide)⟩

lemma usize_big : 10 < USIZE := by norm_num [USIZE]

set_option maxRecDepth 4000 in
lemma admissible_run (ops : List AdmissionOp) :
    ∀ s : AdmState, s.count = s.accepted - s.released → s.released ≤ s.accepted →
      s.count ≤ MAX_PLAYERS → admissible s ops = true →
      (ops.foldl admStep s).count = (ops.foldl admStep s).accepted - (ops.foldl admStep s).released ∧
      (ops.foldl admStep s).released ≤ (ops.foldl admStep s).accepted ∧
      (ops.foldl admStep s).count ≤ MAX_PLAYERS := by
  induction ops with
  | nil =>
      intro s h1 h2 h3 _
      exact ⟨h1, h2, h3⟩
  | cons op rest ih =>
      intro s h1 h2 h3 hadm
      rw [admissible, Bool.and_eq_true] at hadm
      obtain ⟨hhead, htail⟩ := hadm
      rw [List.foldl_cons]
      have hmax : MAX_PLAYERS = 10 := rfl
      have hub := usize_big
      cases op with
      | join =>
          by_cases hc : s.count < MAX_PLAYERS
          · have hstep : admStep s AdmissionOp.join =
                { s with count := (s.count + 1) % USIZE, accepted := s.accepted + 1 } := by
              simp [admStep, fetchUpdateJoin, hc]
            rw [hstep] at htail ⊢
            have hmod : (s.count + 1) % USIZE = s.count + 1 :=
              Nat.mod_eq_of_lt (by omega)
            refine ih _ ?_ ?_ ?_ htail <;> simp only [hmod] <;> omega
          · have hstep : admStep s AdmissionOp.join = s := by
              simp [admStep, fetchUpdateJoin, hc]
            rw [hstep] at htail ⊢
            exact ih s h1 h2 h3 htail
      | release =>
          have hrel : s.released < s.accepted := by
            simpa using hhead
          have hcnt : 1 ≤ s.count := by omega
          have hmod : (s.count + (USIZE - 1)) % USIZE = s.count - 1 := by
            have heq : s.count + (USIZE - 1) = (s.count - 1) + USIZE := by omega
            rw [heq, Nat.add_mod_right]
            exact Nat.mod_eq_of_lt (by omega)
          have hstep : admStep s AdmissionOp.release = { count := (s.count + (USIZE - 1)) % USIZE, accepted := s.accepted, released := s.released + 1 } := rfl
          rw [hstep] at htail ⊢
          refine ih _ ?_ ?_ ?_ htail
          · show (s.count + (USIZE - 1)) % USIZE = s.accepted - (s.released + 1)
            rw [hmod]
            omega
          · show s.released + 1 ≤ s.accepted
            omega
          · show (s.count + (USIZE - 1)) % USIZE ≤ MAX_PLAYERS
            rw [hmod]
            omega

/-- Claim C2: over every system-producible interleaving of join attempts and
releases (each release matching a previously accepted join, which is how the
reaping pass uses `fetch_sub`), the admission count never exceeds
`MAX_PLAYERS = 10` and always equals accepted joins minus releases; a join
attempt succeeds — incrementing the count — exactly when the observed count is
below the maximum, and otherwise fails with the "server full" result leaving
the count unchanged.  Since every prefix of an admissible sequence is
admissible, this covers every observation point. -/
theorem admission_bounded (ops : List AdmissionOp)
    (h : admissible admInit ops = true) :
    (admRun ops).count = (admRun ops).accepted - (admRun ops).released ∧
    (admRun ops).count ≤ MAX_PLAYERS ∧
    (∀ c, c < MAX_PLAYERS → fetchUpdateJoin c = some (c + 1) ∧ join c = Except.ok ()) ∧
    (∀ c, ¬c < MAX_PLAYERS →
      fetchUpdateJoin c = none ∧ join c = Except.error ("The server is full!")) := by
  have hrun := admissible_run ops admInit rfl (Nat.le_refl 0) (by decide) h
  refine ⟨hrun.1, hrun.2.2, ?_, ?_⟩
  · intro c hc
    have hub := usize_big
    have hmax : MAX_PLAYERS = 10 := rfl
    have hfu : fetchUpdateJoin c = some (c + 1) := by
      simp only [fetchUpdateJoin, if_pos hc]
      congr 1
      exact Nat.mod_eq_of_lt (by omega)
    exact ⟨hfu, by simp [join, hfu]⟩
  · intro c hc
    have hfu : fetchUpdateJoin c = none := by
      simp only [fetchUpdateJoin, if_neg hc]
    exact ⟨hfu, by simp [join, hfu]⟩

/-- Witness for C2 on the concrete sequence join, join, release, join. -/
theorem admission_bounded_witness :
    admissible admInit
        [AdmissionOp.join, AdmissionOp.join, AdmissionOp.release, AdmissionOp.join] = true ∧
      ((admRun [AdmissionOp.join, AdmissionOp.join, AdmissionOp.release, AdmissionOp.join]).count =
          (admRun [AdmissionOp.join, AdmissionOp.join, AdmissionOp.release, AdmissionOp.join]).accepted -
            (admRun [AdmissionOp.join, AdmissionOp.join, AdmissionOp.release, AdmissionOp.join]).released ∧
        (admRun [AdmissionOp.join, AdmissionOp.join, AdmissionOp.release, AdmissionOp.join]).count ≤ MAX_PLAYERS ∧
        (∀ c, c < MAX_PLAYERS → fetchUpdateJoin c = some (c + 1) ∧ join c = Except.ok ()) ∧
        (∀ c, ¬c < MAX_PLAYERS →
          fetchUpdateJoin c = none ∧ join c = Except.error ("The server is full!"))) :=
  ⟨by decide,
    admission_bounded [AdmissionOp.join, AdmissionOp.join, AdmissionOp.release, AdmissionOp.join]
      (by decide)⟩

/-- Claim C4: a position-update event with vertical coordinate at most 0
teleports the session to exactly the configured spawn coordinate, whatever its
prior horizontal position, preserving its current pitch and yaw; one with
vertical coordinate above 0 changes nothing. -/
theorem movement_fall_teleports (c : ClientState) (position : Vec3) :
    (position.y ≤ 0 →
      handleMovement c position =
        { c with position := spawn_pos, pitch := c.pitch, yaw := c.yaw }) ∧
    (0 < position.y → handleMovement c position = c) := by
  constructor
  · intro h
    rw [handleMovement, if_pos h]
    rfl
  · intro h
    rw [handleMovement, if_neg (not_le.mpr h)]

/-- Witness for C4: a fall at `y = -5` from a far-away horizontal position,
and a harmless update at `y = 7`. -/
theorem movement_fall_teleports_witness :
    ((-5 : Rat) ≤ 0 ∧
      handleMovement
          { createdTick := 0, disconnected := false,
            position := { x := 90, y := -5, z := 3 }, pitch := 11, yaw := 22,
            gameMode := GameMode.Survival, events := [], messages := [],
            presenceInserts := 1 }
          { x := 90, y := -5, z := 3 } =
        { createdTick := 0, disconnected := false, position := spawn_pos,
          pitch := 11, yaw := 22, gameMode := GameMode.Survival, events := [],
          messages := [], presenceInserts := 1 }) ∧
    ((0 : Rat) < 7 ∧
      handleMovement
          { createdTick := 0, disconnected := false,
            position := { x := 90, y := 7, z := 3 }, pitch := 11, yaw := 22,
            gameMode := GameMode.Survival, events := [], messages := [],
            presenceInserts := 1 }
          { x := 90, y := 7, z := 3 } =
        { createdTick := 0, disconnected := false,
          position := { x := 90, y := 7, z := 3 }, pitch := 11, yaw := 22,
          gameMode := GameMode.Survival, events := [], messages := [],
          presenceInserts := 1 }) :=
  ⟨⟨by norm_num,
    (movement_fall_teleports _ _).1 (by norm_num)⟩,
   ⟨by norm_num,
    (movement_fall_teleports _ _).2 (by norm_num)⟩⟩

/-- Claim C5: an activate-cell (digging) event mutates the grid iff its
coordinate lies in `[0, SIZE_X) × [0, SIZE_Z)` at elevation exactly `BOARD_Y`;
in that case precisely the cell `(x, z)` of the current buffer is set alive,
and any other coordinate leaves the board entirely unchanged (the handler is
total — rejection is silent). -/
theorem digging_mutates_iff (b : Board) (pos : BlockPos) :
    ((0 ≤ pos.x ∧ pos.x < (SIZE_X : Int)) ∧ (0 ≤ pos.z ∧ pos.z < (SIZE_Z : Int)) ∧
        pos.y = BOARD_Y →
      ∀ k, handleDigging b pos k =
        if k = encode pos.x.toNat pos.z.toNat then true else b k) ∧
    (¬((0 ≤ pos.x ∧ pos.x < (SIZE_X : Int)) ∧ (0 ≤ pos.z ∧ pos.z < (SIZE_Z : Int)) ∧
        pos.y = BOARD_Y) →
      handleDigging b pos = b) := by
  constructor
  · intro h k
    have hU : ((USIZE : Nat) : Int) = 18446744073709551616 := by norm_num [USIZE]
    have hX : ((SIZE_X : Nat) : Int) = 100 := by norm_num [SIZE_X]
    have hZ : ((SIZE_Z : Nat) : Int) = 100 := by norm_num [SIZE_Z]
    have ex : intAsUsize pos.x = pos.x.toNat := by
      rw [intAsUsize, hU]
      omega
    have ez : intAsUsize pos.z = pos.z.toNat := by
      rw [intAsUsize, hU]
      omega
    rw [handleDigging, if_pos h, setIdx, ex, ez]
    rfl
  · intro h
    rw [handleDigging, if_neg h]

/-- Witness for C5: the accepted dig at `(3, BOARD_Y, 4)` sets exactly cell
`(3, 4)`; the digs at `(-1, BOARD_Y, 5)` and `(5, BOARD_Y + 1, 5)` change
nothing. -/
theorem digging_mutates_iff_witness :
    (((0 : Int) ≤ 3 ∧ (3 : Int) < (SIZE_X : Int)) ∧
        ((0 : Int) ≤ 4 ∧ (4 : Int) < (SIZE_Z : Int)) ∧ (BOARD_Y : Int) = BOARD_Y) ∧
    (∀ k, handleDigging (fun _ => false) { x := 3, y := BOARD_Y, z := 4 } k =
      if k = encode (Int.toNat 3) (Int.toNat 4) then true else false) ∧
    handleDigging (fun _ => false) { x := -1, y := BOARD_Y, z := 5 } = (fun _ => false) ∧
    handleDigging (fun _ => false) { x := 5, y := BOARD_Y + 1, z := 5 } = (fun _ => false) :=
  ⟨by decide,
   (digging_mutates_iff (fun _ => false) { x := 3, y := BOARD_Y, z := 4 }).1 (by decide),
   (digging_mutates_iff (fun _ => false) { x := -1, y := BOARD_Y, z := 5 }).2 (by decide),
   (digging_mutates_iff (fun _ => false) { x := 5, y := BOARD_Y + 1, z := 5 }).2 (by decide)⟩

/-- Claim C6: on a tick whose counter is not divisible by 4 the handler stops
after the event drain — the current buffer holds exactly the drained board,
the scratch buffer and the tiles are untouched; on a tick divisible by 4 the
generation step runs on the drained board and the materializer then runs on
the already-stepped generation (step strictly before materialization), the
swap leaving the pre-step board in the scratch buffer. -/
theorem step_every_fourth_tick (t minY : Int) (g : GameState) :
    (t % 4 ≠ 0 →
      (update t minY g).board = drainedBoard t g ∧
      (update t minY g).boardBuf = g.boardBuf ∧
      (update t minY g).chunks = g.chunks) ∧
    (t % 4 = 0 →
      (update t minY g).board = step (drainedBoard t g) ∧
      (update t minY g).boardBuf = drainedBoard t g ∧
      (update t minY g).chunks = materialize minY (step (drainedBoard t g)) g.chunks) := by
  constructor
  · intro h
    refine ⟨?_, ?_, ?_⟩
    · rw [update, if_pos h, drainedBoard]
    · rw [update, if_pos h]
    · rw [update, if_pos h]
  · intro h
    refine ⟨?_, ?_, ?_⟩
    · rw [update, if_neg (by omega : ¬t % 4 ≠ 0), drainedBoard]
    · rw [update, if_neg (by omega : ¬t % 4 ≠ 0), drainedBoard]
    · rw [update, if_neg (by omega : ¬t % 4 ≠ 0), drainedBoard]

/-- Witness for C6 on an empty server: tick 1 does not step, tick 4 does. -/
theorem step_every_fourth_tick_witness :
    ((1 : Int) % 4 ≠ 0 ∧
      ((update 1 0 { playerCount := 0, clients := [], board := fun _ => false, boardBuf := fun _ => false, chunks := fun _ => BlockState.AIR }).board =
          drainedBoard 1 { playerCount := 0, clients := [], board := fun _ => false, boardBuf := fun _ => false, chunks := fun _ => BlockState.AIR } ∧
        (update 1 0 { playerCount := 0, clients := [], board := fun _ => false, boardBuf := fun _ => false, chunks := fun _ => BlockState.AIR }).boardBuf = (fun _ => false) ∧
        (update 1 0 { playerCount := 0, clients := [], board := fun _ => false, boardBuf := fun _ => false, chunks := fun _ => BlockState.AIR }).chunks = (fun _ => BlockState.AIR))) ∧
    ((4 : Int) % 4 = 0 ∧
      ((update 4 0 { playerCount := 0, clients := [], board := fun _ => false, boardBuf := fun _ => false, chunks := fun _ => BlockState.AIR }).board =
          step (drainedBoard 4 { playerCount := 0, clients := [], board := fun _ => false, boardBuf := fun _ => false, chunks := fun _ => BlockState.AIR }) ∧
        (update 4 0 { playerCount := 0, clients := [], board := fun _ => false, boardBuf := fun _ => false, chunks := fun _ => BlockState.AIR }).boardBuf =
          drainedBoard 4 { playerCount := 0, clients := [], board := fun _ => false, boardBuf := fun _ => false, chunks := fun _ => BlockState.AIR } ∧
        (update 4 0 { playerCount := 0, clients := [], board := fun _ => false, boardBuf := fun _ => false, chunks := fun _ => BlockState.AIR }).chunks =
          materialize 0 (step (drainedBoard 4 { playerCount := 0, clients := [], board := fun _ => false, boardBuf := fun _ => false, chunks := fun _ => BlockState.AIR })) (fun _ => BlockState.AIR))) :=
  ⟨⟨by decide,
    (step_every_fourth_tick 1 0 _).1 (by decide)⟩,
   ⟨by decide,
    (step_every_fourth_tick 4 0 _).2 (by decide)⟩⟩

lemma foldl_applyWrite_apply (ws : List (Option (WKey × BlockState))) :
    ∀ (ch : Chunks) (k : WKey),
      ws.foldl applyWrite ch k = (lastVal ws k).getD (ch k) := by
  induction ws with
  | nil =>
      intro ch k
      rfl
  | cons w ws ih =>
      intro ch k
      rw [List.foldl_cons, ih (applyWrite ch w) k]
      show (lastVal ws k).getD (applyWrite ch w k) =
        (match lastVal ws k with
          | some v => some v
          | none => writeHit w k).getD (ch k)
      cases hl : lastVal ws k with
      | some v => rfl
      | none =>
          show applyWrite ch w k = (writeHit w k).getD (ch k)
          cases w with
          | none => rfl
          | some kv =>
              obtain ⟨k2, v⟩ := kv
              by_cases hk : k2 = k
              · subst hk
                simp [applyWrite, writeHit]
              · have hk2 : ¬k = k2 := fun he => hk he.symm
                simp [applyWrite, writeHit, hk, hk2]

lemma materialize_apply (minY : Int) (b : Board) (ch : Chunks) (k : WKey) :
    materialize minY b ch k = (lastVal (matIndices.map (matWrite minY b)) k).getD (ch k) := by
  rw [materialize, ← List.foldl_map, foldl_applyWrite_apply]

lemma lastVal_none (k : WKey) :
    ∀ ws : List (Option (WKey × BlockState)),
      (∀ w ∈ ws, ∀ k2 v, w = some (k2, v) → k2 ≠ k) → lastVal ws k = none := by
  intro ws
  induction ws with
  | nil =>
      intro _
      rfl
  | cons w ws ih =>
      intro h
      have htail : lastVal ws k = none := ih (fun w2 hw2 => h w2 (List.mem_cons_of_mem _ hw2))
      show (match lastVal ws k with
        | some v => some v
        | none => writeHit w k) = none
      rw [htail]
      show writeHit w k = none
      cases w with
      | none => rfl
      | some kv =>
          obtain ⟨k2, v⟩ := kv
          have hne := h (some (k2, v)) (List.mem_cons_self _ _) k2 v rfl
          simp [writeHit, hne]

/-- Claim C7: the materializer is a deterministic function of the current
generation — running it a second time against the same generation (no step in
between) leaves the tile store identical, and every tile cell whose global
column lies outside `[0, SIZE_X) × [0, SIZE_Z)` is never written at any
elevation. -/
theorem materializer_idempotent (minY : Int) (b : Board) (ch : Chunks) :
    materialize minY b (materialize minY b ch) = materialize minY b ch ∧
    (∀ (cX cZ : Int) (lx ly lz : Nat),
      ¬(0 ≤ cX * 16 + (lx : Int) ∧ cX * 16 + (lx : Int) < (SIZE_X : Int) ∧
          0 ≤ cZ * 16 + (lz : Int) ∧ cZ * 16 + (lz : Int) < (SIZE_Z : Int)) →
      materialize minY b ch ((cX, cZ), lx, ly, lz) = ch ((cX, cZ), lx, ly, lz)) := by
  constructor
  · funext k
    rw [materialize_apply, materialize_apply]
    cases hl : lastVal (matIndices.map (matWrite minY b)) k with
    | some v => rfl
    | none => rfl
  · intro cX cZ lx ly lz h
    rw [materialize_apply, lastVal_none]
    · rfl
    · intro w hw k2 v hww
      rcases List.mem_map.mp hw with ⟨q, _, hwq⟩
      intro hk2
      subst hk2
      subst hwq
      simp only [matWrite] at hww
      by_cases hc : q.1 * 16 + q.2.2.1 < SIZE_X ∧ q.2.1 * 16 + q.2.2.2 < SIZE_Z
      · rw [if_pos hc] at hww
        have hKV := Option.some.inj hww
        have hkey : ((((q.1 : Int), (q.2.1 : Int)), q.2.2.1, intAsUsize (BOARD_Y - minY), q.2.2.2) : WKey) = ((cX, cZ), lx, ly, lz) :=
          congrArg Prod.fst hKV
        simp only [Prod.mk.injEq] at hkey
        obtain ⟨⟨e1, e2⟩, e3, e4, e5⟩ := hkey
        apply h
        have hX2 : SIZE_X = 100 := rfl
        have hZ2 : SIZE_Z = 100 := rfl
        rw [hX2] at hc ⊢
        rw [hZ2] at hc ⊢
        subst e1
        subst e2
        subst e3
        subst e5
        push_cast
        omega
      · rw [if_neg hc] at hww
        cases hww

/-- Witness for C7: a blinker generation over an all-air tile store; the cell
with global coordinates `(-16, 0)` (chunk `(-1, 0)`) is out of bounds. -/
theorem materializer_idempotent_witness :
    materialize (-64) blinkerH (materialize (-64) blinkerH (fun _ => BlockState.AIR)) =
        materialize (-64) blinkerH (fun _ => BlockState.AIR) ∧
      (¬(0 ≤ (-1 : Int) * 16 + ((0 : Nat) : Int) ∧ (-1 : Int) * 16 + ((0 : Nat) : Int) < (SIZE_X : Int) ∧
          0 ≤ (0 : Int) * 16 + ((0 : Nat) : Int) ∧ (0 : Int) * 16 + ((0 : Nat) : Int) < (SIZE_Z : Int)) ∧
        materialize (-64) blinkerH (fun _ => BlockState.AIR) ((-1, 0), 0, 114, 0) =
          BlockState.AIR) :=
  ⟨(materializer_idempotent (-64) blinkerH (fun _ => BlockState.AIR)).1,
   by decide,
   (materializer_idempotent (-64) blinkerH (fun _ => BlockState.AIR)).2 (-1) 0 0 114 0 (by decide)⟩

lemma onboardSetup_createdTick (c : ClientState) :
    (onboardSetup c).createdTick = c.createdTick := rfl

lemma onboardSetup_disconnected (c : ClientState) :
    (onboardSetup c).disconnected = c.disconnected := rfl

lemma onboardSetup_presence (c : ClientState) :
    (onboardSetup c).presenceInserts = c.presenceInserts + 1 := rfl

lemma runClient_presence (ts : List Int) :
    ∀ c : ClientState, c.disconnected = false →
      ∃ c2 : ClientState, runClient c ts = some c2 ∧
        c2.presenceInserts = c.presenceInserts + ts.count c.createdTick ∧
        c2.createdTick = c.createdTick ∧ c2.disconnected = false := by
  induction ts with
  | nil =>
      intro c hd
      exact ⟨c, rfl, by simp, rfl, hd⟩
  | cons t ts ih =>
      intro c hd
      by_cases ht : c.createdTick = t
      · obtain ⟨c2, h1, h2, h3, h4⟩ := ih (onboardSetup c)
          (by rw [onboardSetup_disconnected]; exact hd)
        have hrc : retainClient t c = (onboardSetup c, true) := by
          simp only [retainClient, if_pos ht, onboardSetup_disconnected, hd, Bool.not_false]
        refine ⟨c2, ?_, ?_, ?_, h4⟩
        · show (if (retainClient t c).2 then runClient (retainClient t c).1 ts else none) =
            some c2
          rw [hrc]
          exact h1
        · rw [h2, onboardSetup_presence, onboardSetup_createdTick, List.count_cons]
          simp only [ht, beq_self_eq_true, if_true]
          omega
        · rw [h3, onboardSetup_createdTick]
      · obtain ⟨c2, h1, h2, h3, h4⟩ := ih c hd
        have hrc : retainClient t c = (c, true) := by
          simp only [retainClient, if_neg ht, hd, Bool.not_false]
        refine ⟨c2, ?_, ?_, h3, h4⟩
        · show (if (retainClient t c).2 then runClient (retainClient t c).1 ts else none) =
            some c2
          rw [hrc]
          exact h1
        · rw [h2, List.count_cons]
          simp [ht]
          omega

/-- Claim C8: with a strictly increasing tick counter, the onboarding block
(game mode, teleport to spawn, presence registration, welcome messages — all
performed together, counted by `presenceInserts`) runs for a connected session
exactly on the tick equal to its joined-at tick and never again: after any
strictly increasing run of retain passes the session's presence was registered
once if its creation tick occurred, and zero times otherwise. -/
theorem onboarding_exactly_once (c : ClientState) (ts : List Int)
    (hmono : List.Chain' (fun a b => a < b) ts) (hp : c.presenceInserts = 0)
    (hd : c.disconnected = false) :
    ∃ c2 : ClientState, runClient c ts = some c2 ∧
      c2.presenceInserts = (if c.createdTick ∈ ts then 1 else 0) := by
  obtain ⟨c2, h1, h2, _h3, _h4⟩ := runClient_presence ts c hd
  refine ⟨c2, h1, ?_⟩
  rw [h2, hp, Nat.zero_add]
  have hnd : ts.Nodup := by
    have hp2 := List.chain'_iff_pairwise.mp hmono
    exact hp2.imp (fun hlt => ne_of_lt hlt)
  by_cases hm : c.createdTick ∈ ts
  · rw [if_pos hm]
    exact List.count_eq_one_of_mem hnd hm
  · rw [if_neg hm]
    exact List.count_eq_zero_of_not_mem hm

/-- Witness for C8: a session created at tick 5 run through ticks 4, 5, 9. -/
theorem onboarding_exactly_once_witness :
    List.Chain' (fun a b => a < b) [(4 : Int), 5, 9] ∧
      (∃ c2 : ClientState,
        runClient
            { createdTick := 5, disconnected := false,
              position := { x := 0, y := 70, z := 0 }, pitch := 0, yaw := 0,
              gameMode := GameMode.Creative, events := [], messages := [],
              presenceInserts := 0 }
            [(4 : Int), 5, 9] = some c2 ∧
        c2.presenceInserts =
          (if (5 : Int) ∈ [(4 : Int), 5, 9] then 1 else 0)) :=
  ⟨List.chain'_cons.mpr ⟨by norm_num, List.chain'_cons.mpr ⟨by norm_num, List.chain'_singleton _⟩⟩,
    onboarding_exactly_once
      { createdTick := 5, disconnected := false,
        position := { x := 0, y := 70, z := 0 }, pitch := 0, yaw := 0,
        gameMode := GameMode.Creative, events := [], messages := [],
        presenceInserts := 0 }
      [(4 : Int), 5, 9]
      (List.chain'_cons.mpr ⟨by norm_num, List.chain'_cons.mpr ⟨by norm_num, List.chain'_singleton _⟩⟩)
      rfl rfl⟩

lemma usize_pred_mod (n : Nat) (h1 : 1 ≤ n) (h2 : n < USIZE) :
    (n + (USIZE - 1)) % USIZE = n - 1 := by
  have hub : 10 < USIZE := usize_big
  have heq : n + (USIZE - 1) = (n - 1) + USIZE := by omega
  rw [heq, Nat.add_mod_right]
  exact Nat.mod_eq_of_lt (by omega)

lemma retainClient_fst_disconnected (t : Int) (c : ClientState) :
    (retainClient t c).1.disconnected = c.disconnected := by
  by_cases ht : c.createdTick = t <;>
    simp [retainClient, ht, onboardSetup_disconnected]

lemma retainClient_snd (t : Int) (c : ClientState) :
    (retainClient t c).2 = !c.disconnected := by
  by_cases ht : c.createdTick = t <;>
    simp [retainClient, ht, onboardSetup_disconnected]

lemma retainPass_spec (t : Int) :
    ∀ (cs : List ClientState) (pc : Nat),
      (cs.filter (fun c => c.disconnected)).length ≤ pc → pc < USIZE →
      (∀ c2 ∈ (retainPass t pc cs).2, c2.disconnected = false) ∧
      (retainPass t pc cs).1 + (cs.filter (fun c => c.disconnected)).length = pc ∧
      (retainPass t pc cs).1 < USIZE ∧
      (retainPass t pc cs).2.length + (cs.filter (fun c => c.disconnected)).length =
        cs.length := by
  intro cs
  induction cs with
  | nil =>
      intro pc h1 h2
      refine ⟨?_, ?_, ?_, ?_⟩ <;> simp [retainPass]
      · exact h2
  | cons c cs ih =>
      intro pc h1 h2
      cases hd : c.disconnected with
      | true =>
          have hkeep : (retainClient t c).2 = false := by
            rw [retainClient_snd, hd]
            rfl
          have hflt : ((c :: cs).filter (fun x => x.disconnected)).length =
              (cs.filter (fun x => x.disconnected)).length + 1 := by
            simp [List.filter_cons, hd]
          rw [hflt] at h1
          have hpass : retainPass t pc (c :: cs) =
              retainPass t ((pc + (USIZE - 1)) % USIZE) cs := by
            show (if (retainClient t c).2 then
                ((retainPass t pc cs).1, (retainClient t c).1 :: (retainPass t pc cs).2)
              else retainPass t ((pc + (USIZE - 1)) % USIZE) cs) = _
            rw [hkeep]
            rfl
          have hmod : (pc + (USIZE - 1)) % USIZE = pc - 1 :=
            usize_pred_mod pc (by omega) h2
          rw [hpass, hmod, hflt]
          obtain ⟨g1, g2, g3, g4⟩ := ih (pc - 1) (by omega) (by omega)
          refine ⟨g1, by omega, g3, by simp only [List.length_cons]; omega⟩
      | false =>
          have hkeep : (retainClient t c).2 = true := by
            rw [retainClient_snd, hd]
            rfl
          have hflt : ((c :: cs).filter (fun x => x.disconnected)).length =
              (cs.filter (fun x => x.disconnected)).length := by
            simp [List.filter_cons, hd]
          rw [hflt] at h1
          have hpass : retainPass t pc (c :: cs) =
              ((retainPass t pc cs).1, (retainClient t c).1 :: (retainPass t pc cs).2) := by
            show (if (retainClient t c).2 then
                ((retainPass t pc cs).1, (retainClient t c).1 :: (retainPass t pc cs).2)
              else retainPass t ((pc + (USIZE - 1)) % USIZE) cs) = _
            rw [hkeep]
            rfl
          rw [hpass, hflt]
          obtain ⟨g1, g2, g3, g4⟩ := ih pc h1 h2
          refine ⟨?_, g2, g3, ?_⟩
          · intro c2 hc2
            rcases List.mem_cons.mp hc2 with h | h
            · rw [h, retainClient_fst_disconnected]
              exact hd
            · exact g1 c2 h
          · simp only [List.length_cons]
            omega

lemma retainPass_no_disc (t2 : Int) :
    ∀ (cs : List ClientState) (pc : Nat),
      (∀ c2 ∈ cs, c2.disconnected = false) → (retainPass t2 pc cs).1 = pc := by
  intro cs
  induction cs with
  | nil =>
      intro pc _
      rfl
  | cons c cs ih =>
      intro pc h
      have hd : c.disconnected = false := h c (List.mem_cons_self _ _)
      have hkeep : (retainClient t2 c).2 = true := by
        rw [retainClient_snd, hd]
        rfl
      show (if (retainClient t2 c).2 then
          ((retainPass t2 pc cs).1, (retainClient t2 c).1 :: (retainPass t2 pc cs).2)
        else retainPass t2 ((pc + (USIZE - 1)) % USIZE) cs).1 = pc
      rw [hkeep]
      show (retainPass t2 pc cs).1 = pc
      exact ih pc (fun c2 hc2 => h c2 (List.mem_cons_of_mem _ hc2))

/-- Claim C9: in one reaping pass every session observed disconnected — even
one onboarded on that very tick — is removed from the registry and has the
admission counter decremented exactly once (the counter drops by exactly the
number of disconnected sessions, the registry shrinks by the same number and
retains no disconnected session), and because removal is atomic with the
decrement, a later pass over the surviving sessions releases nothing more. -/
theorem reap_releases_exactly_once (t t2 : Int) (pc : Nat) (cs : List ClientState)
    (hk : (cs.filter (fun c => c.disconnected)).length ≤ pc) (hpc : pc < USIZE) :
    (∀ c2 ∈ (retainPass t pc cs).2, c2.disconnected = false) ∧
    (retainPass t pc cs).1 + (cs.filter (fun c => c.disconnected)).length = pc ∧
    (retainPass t pc cs).2.length + (cs.filter (fun c => c.disconnected)).length =
      cs.length ∧
    (retainPass t2 (retainPass t pc cs).1 (retainPass t pc cs).2).1 =
      (retainPass t pc cs).1 := by
  obtain ⟨g1, g2, _g3, g4⟩ := retainPass_spec t cs pc hk hpc
  exact ⟨g1, g2, g4, retainPass_no_disc t2 _ _ g1⟩

/-- Witness for C9: one disconnected and one connected session, counter 2;
the disconnected one was created on the reaping tick itself. -/
theorem reap_releases_exactly_once_witness :
    (([{ createdTick := 3, disconnected := true,
          position := { x := 0, y := 70, z := 0 }, pitch := 0, yaw := 0,
          gameMode := GameMode.Survival, events := [], messages := [],
          presenceInserts := 0 },
        { createdTick := 1, disconnected := false,
          position := { x := 1, y := 70, z := 1 }, pitch := 0, yaw := 0,
          gameMode := GameMode.Survival, events := [], messages := [],
          presenceInserts := 1 }] : List ClientState).filter
        (fun c => c.disconnected)).length ≤ 2 ∧
      (2 : Nat) < USIZE ∧
      (∀ c2 ∈ (retainPass 3 2
          [{ createdTick := 3, disconnected := true,
             position := { x := 0, y := 70, z := 0 }, pitch := 0, yaw := 0,
             gameMode := GameMode.Survival, events := [], messages := [],
             presenceInserts := 0 },
           { createdTick := 1, disconnected := false,
             position := { x := 1, y := 70, z := 1 }, pitch := 0, yaw := 0,
             gameMode := GameMode.Survival, events := [], messages := [],
             presenceInserts := 1 }]).2, c2.disconnected = false) :=
  ⟨by decide, by decide,
    (reap_releases_exactly_once 3 4 2
      [{ createdTick := 3, disconnected := true,
         position := { x := 0, y := 70, z := 0 }, pitch := 0, yaw := 0,
         gameMode := GameMode.Survival, events := [], messages := [],
         presenceInserts := 0 },
       { createdTick := 1, disconnected := false,
         position := { x := 1, y := 70, z := 1 }, pitch := 0, yaw := 0,
         gameMode := GameMode.Survival, events := [], messages := [],
         presenceInserts := 1 }] (by decide) (by decide)).1⟩
